import Mathlib

/-!
Verification development for the ecs_detective field-extraction-and-classification
engine.  JavaScript strings are modelled as lists of characters (`Str`); each
JavaScript function of the repository is transliterated into a computable Lean
function over `Str`.  Regular-expression tests are transliterated into explicit
character-list predicates: every pattern used by the source is anchored or
class-disjoint enough that greedy matching is deterministic, so each regex has a
direct recursive reading.  Early-`return false` chains are modelled as boolean
conjunctions of the negated exclusion groups, in source order.
-/

/-- Strings as character lists (the JS string model). -/
abbrev Str := List Char

/-- Convert a Lean string literal to the character-list model. -/
def str (s : String) : Str := s.data

/-- Lower-case a modelled string (for regexes carrying the `i` flag; all source
patterns are ASCII). -/
def lowerStr (s : Str) : Str := s.map Char.toLower

/-- Case-insensitive prefix test. -/
def startsWithCI (p s : Str) : Bool := (lowerStr p).isPrefixOf (lowerStr s)

/-- Case-insensitive suffix test. -/
def endsWithCI (p s : Str) : Bool := (lowerStr p).isSuffixOf (lowerStr s)

/-- Substring occurrence test (JS `includes` / unanchored regex literal). -/
def containsSub (needle : Str) : Str → Bool
  | [] => needle.isEmpty
  | c :: t => needle.isPrefixOf (c :: t) || containsSub needle t

/-- Case-insensitive substring occurrence test. -/
def containsSubCI (needle s : Str) : Bool := containsSub (lowerStr needle) (lowerStr s)

/-- Case-insensitive equality. -/
def eqCI (a b : Str) : Bool := lowerStr a == lowerStr b

/-- Split on a separator character, like JS `split` (keeps empty pieces). -/
def splitSep (sep : Char) : Str → List Str
  | [] => [[]]
  | c :: t =>
    if c = sep then [] :: splitSep sep t
    else
      match splitSep sep t with
      | [] => [[c]]
      | s :: rest => (c :: s) :: rest

/-- Rejoin pieces with a separator (inverse of `splitSep`). -/
def joinSep (sep : Char) : List Str → Str
  | [] => []
  | [s] => s
  | s :: rest => s ++ sep :: joinSep sep rest

/-- Word character of the regex class `[a-zA-Z0-9_]`. -/
def isWordChar (c : Char) : Bool := c.isAlpha || c.isDigit || c = '_'

/-- Hexadecimal character of the regex class `[a-f0-9]` with the `i` flag. -/
def isHexChar (c : Char) : Bool :=
  c.isDigit || ('a' ≤ c && c ≤ 'f') || ('A' ≤ c && c ≤ 'F')

/-- One dot-segment `X[a-zA-Z0-9_]*` whose first character satisfies `first`. -/
def segOkFirst (first : Char → Bool) : Str → Bool
  | [] => false
  | c :: t => first c && t.all isWordChar

/-- Anchored dotted-name grammar `^F[a-zA-Z0-9_]*(\.[a-zA-Z][a-zA-Z0-9_]*)*$`
where the first character of the first segment satisfies `first`. -/
def dottedName (first : Char → Bool) (s : Str) : Bool :=
  match splitSep '.' s with
  | [] => false
  | seg :: rest => segOkFirst first seg && rest.all (segOkFirst Char.isAlpha)

/-- Grammar with a plain letter first: `^[a-zA-Z]...` (no `@`). -/
def plainName (s : Str) : Bool := dottedName Char.isAlpha s

/-- Grammar allowing `@` as first character: `^[a-zA-Z@]...`. -/
def atName (s : Str) : Bool := dottedName (fun c => c.isAlpha || c = '@') s

/-!  Shared exclusion-pattern groups.  Each group is transliterated once and
reused by every validator whose source carries the identical pattern list
(src/src/field-parser.js, src/src/utils/field-utils.js and the legacy
ESClientParser share most groups verbatim).  -/

/-- File-extension suffixes excluded by all validators. -/
def fileExts : List Str :=
  [str ".png", str ".jpg", str ".jpeg", str ".gif", str ".svg", str ".webp",
   str ".ico", str ".bmp",
   str ".css", str ".scss", str ".less", str ".sass",
   str ".html", str ".htm", str ".xml", str ".xhtml",
   str ".js", str ".ts", str ".jsx", str ".tsx", str ".mjs", str ".cjs",
   str ".json", str ".yaml", str ".yml", str ".toml", str ".ini", str ".cfg",
   str ".txt", str ".md", str ".rst", str ".log",
   str ".woff", str ".woff2", str ".ttf", str ".eot", str ".otf",
   str ".mp4", str ".avi", str ".mov", str ".webm", str ".mp3", str ".wav",
   str ".ogg",
   str ".zip", str ".tar", str ".gz", str ".rar", str ".7z", str ".dmg",
   str ".iso",
   str ".pdf", str ".doc", str ".docx", str ".xls", str ".xlsx", str ".ppt",
   str ".pptx"]

def matchesFilePatterns (s : Str) : Bool := fileExts.any (fun e => endsWithCI e s)

/-- Top-level-domain words of the URL exclusion group. -/
def urlTLDs : List Str :=
  [str "com", str "org", str "net", str "edu", str "gov", str "mil", str "co",
   str "io", str "ly", str "me", str "ai", str "dev"]

/-- Known documentation domains tested as unanchored substrings. -/
def knownDomains : List Str :=
  [str "github.com", str "elastic.co", str "mitre.org", str "mozilla.org",
   str "stackoverflow.com", str "malpedia."]

/-- Regex `^[a-zA-Z0-9-]+\.(com|org|...)$` with the `i` flag: a dot-free label
followed by a single TLD segment. -/
def bareDomain (s : Str) : Bool :=
  match splitSep '.' s with
  | [label, tld] =>
    !label.isEmpty && label.all (fun c => c.isAlpha || c.isDigit || c = '-') &&
      urlTLDs.any (fun t => eqCI tld t)
  | _ => false

/-- URL exclusion group of field-utils and the legacy ESClientParser
(bare-domain full match). -/
def matchesUrlPatternsShared (s : Str) : Bool :=
  startsWithCI (str "http://") s || startsWithCI (str "https://") s ||
  startsWithCI (str "ftp://") s || bareDomain s || startsWithCI (str "www.") s ||
  knownDomains.any (fun d => containsSubCI d s)

/-- URL exclusion group of src/src/field-parser.js (TLD tested as a suffix,
`/\.(com|org|...)$/i`). -/
def matchesUrlPatternsFP (s : Str) : Bool :=
  startsWithCI (str "http://") s || startsWithCI (str "https://") s ||
  startsWithCI (str "ftp://") s ||
  urlTLDs.any (fun t => endsWithCI ('.' :: t) s) ||
  startsWithCI (str "www.") s ||
  knownDomains.any (fun d => containsSubCI d s)

def imgExts : List Str := [str "png", str "jpg", str "jpeg", str "gif", str "svg"]

/-- Regex `^BASE\d*\.(png|jpg|jpeg|gif|svg)$` with the `i` flag. -/
def numberedAsset (base : Str) (s : Str) : Bool :=
  let l := lowerStr s
  if base.isPrefixOf l then
    let r := l.drop base.length
    let ds := r.takeWhile Char.isDigit
    imgExts.any (fun e => r.drop ds.length == '.' :: e)
  else false

/-- Asset-reference exclusion group (identical in all validators). -/
def matchesAssetPatterns (s : Str) : Bool :=
  numberedAsset (str "image") s || numberedAsset (str "icon") s ||
  numberedAsset (str "logo") s || numberedAsset (str "background") s ||
  numberedAsset (str "screenshot") s ||
  containsSubCI (str "assets.") s || containsSubCI (str "static.") s

/-- Abbreviation/text-artifact exclusion group (identical in all validators). -/
def matchesTextPatterns (s : Str) : Bool :=
  eqCI s (str "e.g") || eqCI s (str "i.e") || eqCI s (str "etc") ||
  eqCI s (str "vs") || eqCI s (str "cmd.exe") || eqCI s (str "powershell.exe")

def sysExeNames : List Str :=
  [str "rundll32", str "regsvr32", str "svchost", str "explorer",
   str "winlogon", str "csrss", str "lsass", str "spoolsv", str "services",
   str "smss", str "wininit", str "dwm", str "taskhost", str "dllhost",
   str "msiexec", str "setup", str "install"]

def sysDllNames : List Str :=
  [str "ntdll", str "kernel32", str "user32", str "gdi32", str "advapi32",
   str "ole32", str "shell32", str "comctl32", str "msvcrt", str "ws2_32"]

def winExts : List Str := [str "exe", str "dll", str "bat", str "msi", str "scr"]

/-- Regex `^[^.]*\.(exe|dll|bat|msi|scr)$/i`: a single dot-free stem before the
extension. -/
def bareWinBinary (s : Str) : Bool :=
  match splitSep '.' s with
  | [_, ext] => winExts.any (fun e => eqCI ext e)
  | _ => false

/-- Windows-executable group of field-utils and the legacy ESClientParser. -/
def matchesWinPatternsShared (s : Str) : Bool :=
  bareWinBinary s || eqCI s (str "cmd") ||
  sysExeNames.any (fun n => eqCI s (n ++ str ".exe")) ||
  sysDllNames.any (fun n => eqCI s (n ++ str ".dll"))

/-- Windows-executable group of src/src/field-parser.js: `/\.(exe|dll|bat|cmd|msi|scr)$/i`
is a plain suffix test (with the extra `cmd` extension, and no bare `^cmd$`). -/
def matchesWinPatternsFP (s : Str) : Bool :=
  (winExts ++ [str "cmd"]).any (fun e => endsWithCI ('.' :: e) s) ||
  sysExeNames.any (fun n => eqCI s (n ++ str ".exe")) ||
  sysDllNames.any (fun n => eqCI s (n ++ str ".dll"))

/-- Case-insensitive leading anchors of the UI/dashboard-configuration group. -/
def uiCfgStarts : List Str :=
  [str "gridData.", str "embeddableConfig.", str "panelConfig.",
   str "dashboardConfig.", str "visualizationConfig.", str "layoutConfig.",
   str "uiState.", str "appState.", str "globalState.", str "columns.",
   str "dataProviders.", str "meta.anything", str "ui_", str "example.",
   str "template."]

/-- UI/dashboard-configuration exclusion group (identical in all validators). -/
def matchesUiConfigPatterns (s : Str) : Bool :=
  uiCfgStarts.any (fun p => startsWithCI p s) ||
  containsSubCI (str "anything_you_want") s

/-- Regex `^[a-f0-9]{32,}$/i`: the whole candidate is a run of 32 or more hex
characters. -/
def allHex32 (s : Str) : Bool := decide (32 ≤ s.length) && s.all isHexChar

/-- Regex `^[a-f0-9]{8}-...{4}-...{4}-...{4}-...{12}$/i`: GUID shape. -/
def guidShaped (s : Str) : Bool :=
  match splitSep '-' s with
  | [a, b, c, d, e] =>
    decide (a.length = 8) && decide (b.length = 4) && decide (c.length = 4) &&
    decide (d.length = 4) && decide (e.length = 12) &&
    a.all isHexChar && b.all isHexChar && c.all isHexChar && d.all isHexChar &&
    e.all isHexChar
  | _ => false

/-- Regex `/\.[a-f0-9]{32,}\./i`: some segment flanked by dots on both sides
consists of 32 or more hex characters (the hex class excludes the dot, so the
unanchored search matches exactly when such an interior dot-segment exists). -/
def hexDotSegment (s : Str) : Bool :=
  ((splitSep '.' s).drop 1).dropLast.any
    (fun seg => decide (32 ≤ seg.length) && seg.all isHexChar)

/-- Regex `^(adHocDataViews|indexPatternRefs)\.[a-f0-9]{32,}/i`: a fixed prefix
followed immediately by 32 or more hex characters. -/
def kibanaHashRef (s : Str) : Bool :=
  let l := lowerStr s
  ((str "adhocdataviews.").isPrefixOf l &&
    decide (32 ≤ ((l.drop 15).takeWhile isHexChar).length)) ||
  ((str "indexpatternrefs.").isPrefixOf l &&
    decide (32 ≤ ((l.drop 17).takeWhile isHexChar).length))

/-- Hash/GUID exclusion group of src/src/field-parser.js and the legacy
ESClientParser (field-utils does not carry this group). -/
def matchesHashPatterns (s : Str) : Bool :=
  allHex32 s || guidShaped s || hexDotSegment s || kibanaHashRef s

def ideKeywords : List Str := [str "markdown", str "extension", str "plugin"]

/-- IDE/extension-reference and short-domain-fragment exclusion group. -/
def matchesIdePatterns (s : Str) : Bool :=
  (match splitSep '.' s with
   | [w, kw] =>
     (!w.isEmpty && w.all Char.isAlpha && ideKeywords.any (fun k => eqCI kw k)) ||
     (w.all Char.isAlpha && kw.all Char.isAlpha &&
      decide (2 ≤ w.length) && decide (w.length ≤ 3) &&
      decide (2 ≤ kw.length) && decide (kw.length ≤ 3))
   | _ => false) ||
  startsWithCI (str "vscode.") s || startsWithCI (str "extensions.") s ||
  startsWithCI (str "settings.") s || eqCI s (str "ela.st")

/-- Fixed JS/React artifact substrings (JS `includes`, case-sensitive). -/
def jsArtifacts : List Str :=
  [str "jest.fn", str "jest.mock", str "jest.Mock", str "jest.clearAllMocks",
   str "jest.resetAllMocks",
   str "React.memo", str "React.Component", str "React.useState",
   str "React.useEffect",
   str "i18n.translate", str "console.log", str "console.error",
   str "console.warn",
   str "window.location", str "document.getElementById", str "Object.keys",
   str "JSON.stringify",
   str "Array.from", str "String.prototype", str "Number.prototype",
   str "Math.random",
   str "process.env", str "module.exports", str "require.resolve", str "B.V"]

def matchesJsArtifacts (s : Str) : Bool :=
  jsArtifacts.any (fun a => containsSub a s)

/-- Leading anchors of the jsPatterns group (field-parser and legacy
ESClientParser only). -/
def jsStarts : List Str :=
  [str "react.", str "jest.", str "enzyme.", str "lodash.", str "moment.",
   str "rxjs.", str "angular.", str "vue."]

def jsInners : List Str :=
  [str ".prototype.", str ".constructor.", str ".toString.", str ".valueOf."]

def matchesJsPatterns (s : Str) : Bool :=
  jsStarts.any (fun p => startsWithCI p s) ||
  jsInners.any (fun p => containsSubCI p s)

/-- Single-word field names allowed without a dot (JS `includes` on an array,
case-sensitive). -/
def singleWordECSFields : List Str :=
  [str "@timestamp", str "message", str "tags", str "labels", str "error",
   str "level"]

/-- Final format conjunct shared by field-utils and the legacy ESClientParser:
the `[a-zA-Z@]`-grammar regex plus length and explicit dot checks. -/
def isValidFormatAt (s : Str) : Bool :=
  atName s && decide (1 < s.length) && !containsSub (str "..") s &&
  !(['.'] : Str).isPrefixOf s && !(['.'] : Str).isSuffixOf s

namespace FieldUtils

/-- Common-API prefixes of src/src/utils/field-utils.js `isCommonAPIPattern`. -/
def apiStarts : List Str :=
  [str "router.", str "app.", str "request.", str "response.", str "res.",
   str "req.",
   str "console.", str "logger.",
   str "module.", str "require.", str "global.", str "window.",
   str "document.",
   str "react.", str "vue.", str "angular.", str "jquery.", str "_.",
   str "object.", str "array.", str "string.", str "number.", str "date.",
   str "math.", str "json.",
   str "jest.", str "expect.", str "describe.", str "it.", str "test.",
   str "config.", str "options.", str "settings.", str "params.",
   str "http.", str "https.", str "fetch.", str "axios."]

/-- field-utils `isCommonAPIPattern`. -/
def isCommonAPIPattern (s : Str) : Bool :=
  apiStarts.any (fun p => startsWithCI p s)

/-- field-utils `isValidFieldNameWithPrefixes`: optional leading `.` or `@`,
then the plain grammar, length over 1, and a dot or length over 2. -/
def isValidFieldNameWithPrefixes (s : Str) : Bool :=
  (match s with
   | '@' :: t => plainName t
   | '.' :: t => plainName t
   | _ => plainName s) &&
  decide (1 < s.length) && (s.contains '.' || decide (2 < s.length))

/-- field-utils `isValidESFieldName`: `@timestamp` special case, basic format,
then the exclusion groups in source order (no hashPatterns and no jsPatterns
group in this factored version), the single-word allow-list gate, and the final
format check. -/
def isValidESFieldName (s : Str) : Bool :=
  if s == str "@timestamp" then true
  else
    isValidFieldNameWithPrefixes s &&
    !matchesFilePatterns s && !matchesUrlPatternsShared s &&
    !matchesAssetPatterns s && !matchesTextPatterns s &&
    !matchesWinPatternsShared s && !matchesUiConfigPatterns s &&
    !matchesIdePatterns s && !matchesJsArtifacts s &&
    !isCommonAPIPattern s &&
    (s.contains '.' || singleWordECSFields.contains s) &&
    isValidFormatAt s

end FieldUtils

namespace FieldParserM

/-- src/src/field-parser.js `isValidFieldName`: plain grammar (no `@`), length
over 1, and a dot or length over 2. -/
def isValidFieldName (s : Str) : Bool :=
  plainName s && decide (1 < s.length) && (s.contains '.' || decide (2 < s.length))

/-- src/src/field-parser.js `isValidESFieldName`: basic validity then the
exclusion groups in source order (its own URL and Windows variants, with the
hashPatterns and jsPatterns groups, without an API-pattern check and without a
final format check), ending at the single-word allow-list gate. -/
def isValidESFieldName (s : Str) : Bool :=
  isValidFieldName s &&
  !matchesFilePatterns s && !matchesUrlPatternsFP s && !matchesAssetPatterns s &&
  !matchesTextPatterns s && !matchesWinPatternsFP s &&
  !matchesUiConfigPatterns s && !matchesHashPatterns s && !matchesIdePatterns s &&
  !matchesJsArtifacts s && !matchesJsPatterns s &&
  (s.contains '.' || singleWordECSFields.contains s)

/-- src/src/field-parser.js `isValidECSFieldName`: the `[a-zA-Z@]` grammar and
length over 1 (used by the reference-schema loader). -/
def isValidECSFieldName (s : Str) : Bool := atName s && decide (1 < s.length)

end FieldParserM

namespace ESClientLegacy

/-- Common-API prefixes of the legacy ESClientParser `isCommonAPIPattern`
(shorter list than the field-utils one). -/
def apiStarts : List Str :=
  [str "router.", str "app.", str "request.", str "response.", str "res.",
   str "req.",
   str "react.", str "vue.", str "angular.", str "jquery.", str "_.",
   str "object.", str "array.", str "string.", str "number.", str "date.",
   str "math.", str "json.",
   str "jest.", str "expect.", str "describe.", str "it.", str "test."]

def isCommonAPIPattern (s : Str) : Bool :=
  apiStarts.any (fun p => startsWithCI p s)

/-- Legacy ESClientParser `isValidFieldName`: exclusion groups in source order
(shared URL/Windows variants, with hashPatterns and jsPatterns), the
single-word allow-list gate, then the format check and the API-pattern check. -/
def isValidFieldName (s : Str) : Bool :=
  !matchesFilePatterns s && !matchesUrlPatternsShared s &&
  !matchesAssetPatterns s && !matchesTextPatterns s &&
  !matchesWinPatternsShared s && !matchesUiConfigPatterns s &&
  !matchesHashPatterns s && !matchesIdePatterns s &&
  !matchesJsArtifacts s && !matchesJsPatterns s &&
  (s.contains '.' || singleWordECSFields.contains s) &&
  isValidFormatAt s && !isCommonAPIPattern s

end ESClientLegacy

/-!  Name normalizer and classifier (ECSAnalyzer, src/unnamed/part_003).
`normalizeFieldName` is a fixed ordered chain of rewrite attempts; each attempt
returns a candidate only when the rewritten name is present in the schema.  -/

/-- Common top-level namespaces tried by the normalizer (part_003 line 343). -/
def commonNamespaces : List Str :=
  [str "event", str "log", str "user", str "host", str "process", str "source",
   str "destination"]

/-- Loop of part_003 lines 344-349: first namespace whose prepended form is in
the schema. -/
def tryNamespacesAux (core : List Str) (rest : Str) : List Str → Option Str
  | [] => none
  | ns :: more =>
    let nf := ns ++ '.' :: rest
    if core.contains nf then some nf else tryNamespacesAux core rest more

def tryNamespaces (core : List Str) (rest : Str) : Option Str :=
  tryNamespacesAux core rest commonNamespaces

/-- Rule: `kibana.alert.original_event.X` rewrites to `event.X`
(part_003 lines 333-339); the regex `^original_event\.(.+)$` needs a non-empty
remainder. -/
def tryOriginalEvent (w : Str) (core : List Str) : Option Str :=
  if (str "original_event.").isPrefixOf w ∧ (str "original_event.").length < w.length then
    let eventField := str "event." ++ w.drop (str "original_event.").length
    if core.contains eventField then some eventField else none
  else none

/-- Rule: strip a `rule.` sub-path, direct then namespaced
(part_003 lines 352-366). -/
def tryRuleSub (w : Str) (core : List Str) : Option Str :=
  if (str "rule.").isPrefixOf w ∧ (str "rule.").length < w.length then
    let withoutRule := w.drop (str "rule.").length
    if core.contains withoutRule then some withoutRule
    else tryNamespaces core withoutRule
  else none

/-- Rule: strip a `rule.parameters.` sub-path, direct then namespaced
(part_003 lines 369-383). -/
def tryRuleParams (w : Str) (core : List Str) : Option Str :=
  if (str "rule.parameters.").isPrefixOf w ∧ (str "rule.parameters.").length < w.length then
    let wp := w.drop (str "rule.parameters.").length
    if core.contains wp then some wp
    else tryNamespaces core wp
  else none

/-- The `kibana.alert.` block of `normalizeFieldName` (part_003 lines 325-384):
strip the prefix, then try direct lookup, the original-event rewrite, namespace
prepending, the rule rewrite and the rule-parameters rewrite, in that order. -/
def normalizeKibanaAlert (fieldName : Str) (core : List Str) : Option Str :=
  if (str "kibana.alert.").isPrefixOf fieldName then
    let w := fieldName.drop (str "kibana.alert.").length
    if core.contains w then some w
    else
      match tryOriginalEvent w core with
      | some r => some r
      | none =>
        match tryNamespaces core w with
        | some r => some r
        | none =>
          match tryRuleSub w core with
          | some r => some r
          | none => tryRuleParams w core
  else none

/-- Lazy group of `^mappings\.properties\.(.+?)(?:\.fields\..*)?$`: the capture
is the shortest non-empty prefix after which either the string ends or a
`.fields.` marker begins, i.e. everything up to the first `.fields.` occurrence
at index one or later (else the whole remainder). -/
def lazyCapture (marker : Str) : Str → Str
  | [] => []
  | c :: t => c :: (if marker.isPrefixOf t then [] else lazyCapture marker t)

/-- Fuel-driven body of `collapseProps`; every step consumes at least one
character, so fuel equal to the input length is always sufficient. -/
def collapsePropsF : Nat → Str → Str
  | 0, s => s
  | _ + 1, [] => []
  | fuel + 1, c :: t =>
    if (str ".properties.").isPrefixOf (c :: t) then '.' :: collapsePropsF fuel (t.drop 11)
    else c :: collapsePropsF fuel t

/-- Global replace of `.properties.` by `.` (JS `replace(/\.properties\./g, '.')`,
leftmost non-overlapping, continuing after each replaced stretch). -/
def collapseProps (s : Str) : Str := collapsePropsF s.length s

/-- JS `replace(/\.properties$/, '')`. -/
def stripPropsSuffix (s : Str) : Str :=
  if (str ".properties").isSuffixOf s then s.take (s.length - (str ".properties").length)
  else s

/-- Rule 6: collapse mapping-schema scaffolding
(part_003 lines 388-396, regex `^mappings\.properties\.(.+?)(?:\.fields\..*)?$`). -/
def tryComplexMapping (fieldName : Str) (core : List Str) : Option Str :=
  if (str "mappings.properties.").isPrefixOf fieldName ∧
      (str "mappings.properties.").length < fieldName.length then
    let r := fieldName.drop (str "mappings.properties.").length
    let normalizedMapping := stripPropsSuffix (collapseProps (lazyCapture (str ".fields.") r))
    if core.contains normalizedMapping then some normalizedMapping else none
  else none

/-- Lazy group of `(.+?)(?:\.|$)`: at least one character, then up to the first
dot. -/
def upToFirstDotAfterOne : Str → Str
  | [] => []
  | c :: t => c :: t.takeWhile (fun d => !(d = '.'))

/-- Rule 7: schema-metadata echo `^([^.]+)\.fields\.(.+?)(?:\.|$)`
(part_003 lines 399-405); the candidate is the second capture alone. -/
def tryMetadata (fieldName : Str) (core : List Str) : Option Str :=
  let seg1 := fieldName.takeWhile (fun d => !(d = '.'))
  if !seg1.isEmpty &&
      (str ".fields.").isPrefixOf (fieldName.drop seg1.length) &&
      !(fieldName.drop (seg1.length + 8)).isEmpty then
    let g2 := upToFirstDotAfterOne (fieldName.drop (seg1.length + 8))
    if core.contains g2 then some g2 else none
  else none

/-- Back-reference match `^(.+)\.fields\.\1\.(.+?)(?:\.|$)` with a greedy first
group: try the longest split first (part_003 line 408). -/
def nestedTry (s : Str) : Nat → Option (Str × Str)
  | 0 => none
  | k + 1 =>
    let a := s.take (k + 1)
    let rest := s.drop (k + 1)
    if ((str ".fields." ++ a ++ ['.']).isPrefixOf rest) &&
        decide ((str ".fields.").length + a.length + 1 < rest.length) then
      some (a, upToFirstDotAfterOne (rest.drop ((str ".fields.").length + a.length + 1)))
    else nestedTry s k

/-- Rule 8: duplicate-namespace echo `ns.fields.ns.leaf...` collapses to
`ns.leaf` (part_003 lines 408-414). -/
def tryNested (fieldName : Str) (core : List Str) : Option Str :=
  match nestedTry fieldName fieldName.length with
  | some (a, g2) =>
    let v := a ++ '.' :: g2
    if core.contains v then some v else none
  | none => none

/-- Property-scaffold rule `^([^.]+)\.properties\.(.+?)(?:\.|$)`
(part_003 lines 417-423): `host.properties.name.x` tests `host.name`. -/
def tryProp (fieldName : Str) (core : List Str) : Option Str :=
  let seg1 := fieldName.takeWhile (fun d => !(d = '.'))
  if !seg1.isEmpty &&
      (str ".properties.").isPrefixOf (fieldName.drop seg1.length) &&
      !(fieldName.drop (seg1.length + 12)).isEmpty then
    let g2 := upToFirstDotAfterOne (fieldName.drop (seg1.length + 12))
    let v := seg1 ++ '.' :: g2
    if core.contains v then some v else none
  else none

/-- Metadata-suffix keywords of the schema-definition rule (case-sensitive). -/
def schemaDefKeywords : List Str :=
  [str "aggregatable", str "category", str "description", str "example",
   str "format", str "type"]

/-- Schema-definition rule
`^([^.]+)\.fields\.\1\.([^.]+)\.(aggregatable|...|type)$`
(part_003 lines 426-432): `agent.fields.agent.ephemeral_id.category` tests
`agent.ephemeral_id`. -/
def trySchemaDef (fieldName : Str) (core : List Str) : Option Str :=
  let seg1 := fieldName.takeWhile (fun d => !(d = '.'))
  if !seg1.isEmpty &&
      ((str ".fields." ++ seg1 ++ ['.']).isPrefixOf (fieldName.drop seg1.length)) then
    let r := fieldName.drop (seg1.length + 8 + seg1.length + 1)
    let seg2 := r.takeWhile (fun d => !(d = '.'))
    if !seg2.isEmpty &&
        schemaDefKeywords.any (fun k => r.drop seg2.length == '.' :: k) then
      let v := seg1 ++ '.' :: seg2
      if core.contains v then some v else none
    else none
  else none

/-- ECSAnalyzer `normalizeFieldName` (part_003 lines 323-435): the ordered rule
chain; the first rule whose rewritten name is in the schema wins; otherwise
null. -/
def normalizeFieldName (fieldName : Str) (core : List Str) : Option Str :=
  match normalizeKibanaAlert fieldName core with
  | some r => some r
  | none =>
    match tryComplexMapping fieldName core with
    | some r => some r
    | none =>
      match tryMetadata fieldName core with
      | some r => some r
      | none =>
        match tryNested fieldName core with
        | some r => some r
        | none =>
          match tryProp fieldName core with
          | some r => some r
          | none => trySchemaDef fieldName core

/-- FieldParser `isECSField` (src/src/field-parser.js lines 52-71): direct
membership, or the candidate begins with a schema member followed by a dot. -/
def isECSField (fieldName : Str) (coreFields : List Str) : Bool :=
  !fieldName.isEmpty &&
  (coreFields.contains fieldName ||
   coreFields.any (fun c => (c ++ ['.']).isPrefixOf fieldName))

/-- ECSAnalyzer `isVendorField` (part_003 lines 466-497): direct match, match
modulo one leading dot, then prefix match against every vendor pattern. -/
def isVendorField (fieldName : Str) (vendorFields : List Str) : Bool :=
  if fieldName.isEmpty || vendorFields.isEmpty then false
  else if vendorFields.contains fieldName then true
  else
    let withDot := if (['.'] : Str).isPrefixOf fieldName then fieldName else '.' :: fieldName
    let withoutDot := if (['.'] : Str).isPrefixOf fieldName then fieldName.drop 1 else fieldName
    if vendorFields.contains withDot || vendorFields.contains withoutDot then true
    else
      vendorFields.any (fun vp =>
        let pat := if (['.'] : Str).isPrefixOf vp then vp.drop 1 else vp
        let fld := if (['.'] : Str).isPrefixOf fieldName then fieldName.drop 1 else fieldName
        pat.isPrefixOf fld)

/-- JS truthiness guard `normalizedField && coreFields.has(normalizedField)` of
part_003 line 170. -/
def normHit (f : Str) (core : List Str) : Bool :=
  match normalizeFieldName f core with
  | some n => !n.isEmpty && core.contains n
  | none => false

/-- The three-way category of a classified field. -/
inductive Category where
  | core
  | vendor
  | custom
deriving DecidableEq, Repr

/-- Per-candidate decision of the loop body of `categorizeFields`
(part_003 lines 163-180): direct/prefix schema match, then a usable
normalization, then the fixed `kibana.` namespace, then the vendor-pattern set,
else custom. -/
def classifyField (f : Str) (core vendor : List Str) : Category :=
  if isECSField f core then .core
  else if normHit f core then .core
  else if (str "kibana.").isPrefixOf f then .vendor
  else if isVendorField f vendor then .vendor
  else .custom

/-- ECSAnalyzer `categorizeFields` (part_003 lines 158-184): partition the
extracted candidates into core, vendor and custom lists with the same ordered
tests, keeping original candidate strings. -/
def categorizeFields (extracted : List Str) (core vendor : List Str) :
    List Str × List Str × List Str :=
  match extracted with
  | [] => ([], [], [])
  | f :: rest =>
    let prev := categorizeFields rest core vendor
    if isECSField f core then (f :: prev.1, prev.2.1, prev.2.2)
    else if normHit f core then (f :: prev.1, prev.2.1, prev.2.2)
    else if (str "kibana.").isPrefixOf f then (prev.1, f :: prev.2.1, prev.2.2)
    else if isVendorField f vendor then (prev.1, f :: prev.2.1, prev.2.2)
    else (prev.1, prev.2.1, f :: prev.2.2)

/-!  Reference-schema loading (FieldParser.parseECSFields, src/src/field-parser.js
lines 11-50, and the empty-schema guard of ECSAnalyzer.analyze, part_003 lines
54-58).  The CSV library itself is an external collaborator; a parsed row is
modelled by the values it may carry under the three accepted header spellings. -/

/-- One parsed CSV row, restricted to the columns the loader reads; `none`
models an absent (undefined) column value. -/
structure CSVRecord where
  field : Option Str
  fieldCap : Option Str
  fieldUp : Option Str

/-- JS `a || b` on possibly-undefined strings (empty strings are falsy). -/
def jsOr (a b : Option Str) : Option Str :=
  match a with
  | some v => if v.isEmpty then b else some v
  | none => b

/-- The column lookup `record.field || record.Field || record.FIELD`. -/
def rowFieldValue (r : CSVRecord) : Option Str :=
  jsOr r.field (jsOr r.fieldCap r.fieldUp)

/-- ASCII whitespace trimmed by JS `trim`. -/
def isWS (c : Char) : Bool := c = ' ' || c = '\t' || c = '\n' || c = '\r'

/-- JS `String.trim` over the modelled character set. -/
def trimStr (s : Str) : Str := ((s.dropWhile isWS).reverse.dropWhile isWS).reverse

/-- JS `Set.add`: insert preserving first-insertion order. -/
def addField (acc : List Str) (f : Str) : List Str :=
  if acc.contains f then acc else acc ++ [f]

/-- Row loop of `parseECSFields`: keep a row only when a field value is
present, non-blank after trimming, and a valid ECS field name; all other rows
are skipped without failing. -/
def parseECSFieldsAux (acc : List Str) : List CSVRecord → List Str
  | [] => acc
  | r :: rest =>
    match rowFieldValue r with
    | some v =>
      if !(trimStr v).isEmpty then
        if FieldParserM.isValidECSFieldName (trimStr v) then
          parseECSFieldsAux (addField acc (trimStr v)) rest
        else parseECSFieldsAux acc rest
      else parseECSFieldsAux acc rest
    | none => parseECSFieldsAux acc rest

/-- FieldParser `parseECSFields` over pre-parsed rows. -/
def parseECSFields (records : List CSVRecord) : List Str :=
  parseECSFieldsAux [] records

/-- The fatal error of the schema-loading step (the spec's SchemaEmptyError;
the source throws `No core ECS fields found in CSV file`). -/
inductive AnalysisError where
  | schemaEmpty
deriving DecidableEq, Repr

/-- Schema-loading step of `ECSAnalyzer.analyze` (part_003 lines 54-58): parse
the rows and fail when no valid field was found, otherwise hand the schema on. -/
def loadSchemaStep (records : List CSVRecord) : Except AnalysisError (List Str) :=
  let coreFields := parseECSFields records
  if coreFields.isEmpty then Except.error AnalysisError.schemaEmpty
  else Except.ok coreFields

/-- A row is kept by the loader exactly when this holds. -/
def rowKept (r : CSVRecord) : Bool :=
  match rowFieldValue r with
  | some v => !(trimStr v).isEmpty && FieldParserM.isValidECSFieldName (trimStr v)
  | none => false

/-!  Structured-document extraction (FieldParser.extractFromJSON and its
collaborators, src/src/field-parser.js lines 182-304).  `JSON.parse` is a host
runtime primitive, so the strict parser is a parameter of the extractor; the
walk over the parsed tree and the pattern fallback are transliterated.
Recursive walks take an explicit fuel argument (structural recursion on the
fuel, so every definition evaluates in the kernel); wrappers pass a bound that
the JS recursion depth never exceeds.  -/

/-- Parsed JSON values (JS objects as ordered key/value lists). -/
inductive Json where
  | null
  | bool (b : Bool)
  | num (n : Int)
  | text (s : Str)
  | arr (items : List Json)
  | obj (entries : List (Str × Json))
deriving BEq, Repr

/-- JS truthiness of a JSON value. -/
def truthy : Json → Bool
  | .null => false
  | .bool b => b
  | .num n => !(n == 0)
  | .text s => !s.isEmpty
  | .arr _ => true
  | .obj _ => true

/-- JS property access `j[key]`; absent keys and non-objects give a falsy
`undefined`, modelled by `null`. -/
def jsGet (j : Json) (key : Str) : Json :=
  match j with
  | .obj entries => (entries.lookup key).getD .null
  | _ => .null

/-- JS `Object.entries` on a parsed value (non-objects give nothing). -/
def entriesOf : Json → List (Str × Json)
  | .obj entries => entries
  | _ => []

mutual

/-- Nesting depth of a JSON value (a bound for the recursion fuel of the
walks below; the JS recursion descends one nesting level per call). -/
def jsonDepth : Json → Nat
  | .null => 1
  | .bool _ => 1
  | .num _ => 1
  | .text _ => 1
  | .arr items => 1 + jsonDepthList items
  | .obj entries => 1 + jsonDepthEntries entries

def jsonDepthList : List Json → Nat
  | [] => 0
  | j :: rest => max (jsonDepth j) (jsonDepthList rest)

def jsonDepthEntries : List (Str × Json) → Nat
  | [] => 0
  | kv :: rest => max (jsonDepth kv.2) (jsonDepthEntries rest)

end

/-- FieldParser `isMappingDefinition` (src/src/field-parser.js lines 256-268). -/
def isMappingDefinition (j : Json) (pfx : Str) : Bool :=
  (truthy (jsGet j (str "mappings")) &&
   truthy (jsGet (jsGet j (str "mappings")) (str "properties"))) ||
  (containsSub (str "mappings") pfx && truthy (jsGet j (str "properties")))

/-- FieldParser `extractFromMappingDefinition` (src/src/field-parser.js lines
274-304): descend through `mappings`/`properties` wrappers, then walk each
field entry, recursing into nested `properties`, emitting typed leaves and
untyped leaves whose accumulated path is still a valid field name. -/
def extractFromMappingDefinition : Nat → Json → Str → List Str → List Str
  | 0, _, _, acc => acc
  | fuel + 1, j, fieldPath, acc =>
    if truthy (jsGet j (str "mappings")) &&
        truthy (jsGet (jsGet j (str "mappings")) (str "properties")) then
      extractFromMappingDefinition fuel (jsGet (jsGet j (str "mappings")) (str "properties")) [] acc
    else if truthy (jsGet j (str "properties")) then
      extractFromMappingDefinition fuel (jsGet j (str "properties")) fieldPath acc
    else
      (entriesOf j).foldl (fun a nd =>
        let name := nd.1
        let fdef := nd.2
        let cur := if fieldPath.isEmpty then name else fieldPath ++ '.' :: name
        if (match fdef with | .obj _ => true | .arr _ => true | _ => false) &&
            truthy (jsGet fdef (str "properties")) then
          extractFromMappingDefinition fuel (jsGet fdef (str "properties")) cur a
        else if (match fdef with | .obj _ => true | .arr _ => true | _ => false) &&
            truthy (jsGet fdef (str "type")) then
          if FieldParserM.isValidESFieldName cur then addField a cur else a
        else if FieldParserM.isValidESFieldName cur then addField a cur
        else a) acc

/-- FieldParser `extractFromObject` (src/src/field-parser.js lines 212-251):
walk arrays and objects, collecting keys, dotted full paths and string values
that validate, and diverting to the mapping walk for mapping definitions. -/
def extractFromObject : Nat → Json → Str → List Str → List Str
  | 0, _, _, acc => acc
  | fuel + 1, j, pfx, acc =>
    match j with
    | .arr items => items.foldl (fun a item => extractFromObject fuel item pfx a) acc
    | .obj entries =>
      if isMappingDefinition j pfx then
        extractFromMappingDefinition (jsonDepth j) j [] acc
      else
        entries.foldl (fun a kv =>
          let key := kv.1
          let value := kv.2
          let fullKey := if pfx.isEmpty then key else pfx ++ '.' :: key
          let a1 := if FieldParserM.isValidESFieldName key then addField a key else a
          let a2 := if !pfx.isEmpty && FieldParserM.isValidESFieldName fullKey then
              addField a1 fullKey else a1
          let a3 := match value with
            | .text sv => if FieldParserM.isValidESFieldName sv then addField a2 sv else a2
            | _ => a2
          match value with
          | .obj _ => extractFromObject fuel value fullKey a3
          | .arr _ => extractFromObject fuel value fullKey a3
          | _ => a3) acc
    | _ => acc

/-- Parse one regex segment `[a-zA-Z][a-zA-Z0-9_]*` greedily; returns the
segment and the rest. -/
def parseSeg : Str → Option (Str × Str)
  | [] => none
  | c :: t =>
    if c.isAlpha then some (c :: t.takeWhile isWordChar, t.drop (t.takeWhile isWordChar).length)
    else none

/-- Greedy loop for `(\.[a-zA-Z][a-zA-Z0-9_]*)*`; consumes at least two
characters per step, so fuel equal to the input length is sufficient. -/
def dotLoopF : Nat → Str → Str × Str
  | 0, s => ([], s)
  | fuel + 1, s =>
    match s with
    | '.' :: rest =>
      match parseSeg rest with
      | some (sg, r2) =>
        let (more, r3) := dotLoopF fuel r2
        ('.' :: (sg ++ more), r3)
      | none => ([], s)
    | _ => ([], s)

def dotLoop (s : Str) : Str × Str := dotLoopF s.length s

/-- Greedy dotted token `[a-zA-Z][a-zA-Z0-9_]*(\.[a-zA-Z][a-zA-Z0-9_]*)*`.
The characters that may follow a maximal token (neither word characters nor a
dot-letter continuation) can never complete a quote or boundary context, so
greedy maximal matching coincides with the backtracking regex semantics. -/
def parseDottedToken (s : Str) : Option (Str × Str) :=
  match parseSeg s with
  | some (s1, r) =>
    let (more, rest) := dotLoop r
    some (s1 ++ more, rest)
  | none => none

/-- The quote class `['"]` of the extraction regexes. -/
def isQuote (c : Char) : Bool := c = Char.ofNat 39 || c = Char.ofNat 34

/-- After an opening quote: a dotted token followed by a closing quote. -/
def parseQuotedToken (s : Str) : Option (Str × Str) :=
  match parseDottedToken s with
  | some (tok, q :: r2) => if isQuote q then some (tok, r2) else none
  | _ => none

/-- Global scan of `/['"]([a-zA-Z][a-zA-Z0-9_]*(?:\.[a-zA-Z][a-zA-Z0-9_]*)*)['"]/g`:
try at each quote, resume after a whole match (JS `lastIndex`), advance one
character on failure.  Every step consumes at least one character, so fuel
equal to the content length is sufficient. -/
def scanQuotedF : Nat → Str → List Str
  | 0, _ => []
  | _ + 1, [] => []
  | fuel + 1, c :: t =>
    if isQuote c then
      match parseQuotedToken t with
      | some (tok, rest) => tok :: scanQuotedF fuel rest
      | none => scanQuotedF fuel t
    else scanQuotedF fuel t

def scanQuoted (s : Str) : List Str := scanQuotedF s.length s

/-- A bare token needs at least two segments:
`[a-zA-Z][a-zA-Z0-9_]*\.[a-zA-Z][a-zA-Z0-9_]*(?:\.[a-zA-Z][a-zA-Z0-9_]*)*`. -/
def parseBareToken (s : Str) : Option (Str × Str) :=
  match parseSeg s with
  | some (s1, '.' :: r2) =>
    match parseSeg r2 with
    | some (s2, r3) =>
      let (more, rest) := dotLoop r3
      some (s1 ++ '.' :: (s2 ++ more), rest)
    | none => none
  | _ => none

/-- Global scan of `/\b([a-zA-Z][a-zA-Z0-9_]*\.[a-zA-Z][a-zA-Z0-9_]*(?:\.[a-zA-Z][a-zA-Z0-9_]*)*)\b/g`;
`prev` is the character before the scan position (for the `\b` test; the
trailing boundary always holds after a greedy maximal token). -/
def scanBareF : Nat → Option Char → Str → List Str
  | 0, _, _ => []
  | _ + 1, _, [] => []
  | fuel + 1, prev, c :: t =>
    let boundary := match prev with | none => true | some p => !isWordChar p
    if boundary && c.isAlpha then
      match parseBareToken (c :: t) with
      | some (tok, rest) => tok :: scanBareF fuel tok.getLast? rest
      | none => scanBareF fuel (some c) t
    else scanBareF fuel (some c) t

def scanBare (s : Str) : List Str := scanBareF s.length none s

/-- FieldParser `extractFromText` (src/src/field-parser.js lines 202-210 with
`extractWithPatterns`): both pattern scans in order, each hit filtered through
`isValidESFieldName` and added to the set. -/
def extractFromText (content : Str) (acc : List Str) : List Str :=
  let acc1 := (scanQuoted content).foldl
    (fun a tok => if FieldParserM.isValidESFieldName tok then addField a tok else a) acc
  (scanBare content).foldl
    (fun a tok => if FieldParserM.isValidESFieldName tok then addField a tok else a) acc1

/-- FieldParser `extractFromJSON` (src/src/field-parser.js lines 182-190): try
the strict parse; on success walk the tree, on failure fall back to the text
patterns over the same content.  The strict parser is the host `JSON.parse`,
passed as a parameter. -/
def extractFromJSON (parseJson : Str → Except Str Json) (content : Str)
    (acc : List Str) : List Str :=
  match parseJson content with
  | .ok obj => extractFromObject (jsonDepth obj) obj [] acc
  | .error _ => extractFromText content acc

/-- A strict parser that always throws, for exercising the fallback branch. -/
def failingParse : Str → Except Str Json := fun _ => Except.error (str "SyntaxError")

/-!  Shared lemmas about the normalizer: every rule returns a schema member. -/

theorem tryNamespacesAux_contains {core : List Str} {rest : Str} :
    ∀ {l : List Str} {n : Str}, tryNamespacesAux core rest l = some n →
      core.contains n = true := by
  intro l
  induction l with
  | nil => intro n h; simp [tryNamespacesAux] at h
  | cons ns more ih =>
    intro n h
    simp only [tryNamespacesAux] at h
    split at h
    · exact Option.some.inj h ▸ (by assumption)
    · exact ih h

theorem tryNamespaces_contains {core : List Str} {rest n : Str}
    (h : tryNamespaces core rest = some n) : core.contains n = true :=
  tryNamespacesAux_contains h

theorem tryOriginalEvent_contains {w : Str} {core : List Str} {n : Str}
    (h : tryOriginalEvent w core = some n) : core.contains n = true := by
  simp only [tryOriginalEvent] at h
  split at h
  · split at h
    · exact Option.some.inj h ▸ (by assumption)
    · simp at h
  · simp at h

theorem tryRuleSub_contains {w : Str} {core : List Str} {n : Str}
    (h : tryRuleSub w core = some n) : core.contains n = true := by
  simp only [tryRuleSub] at h
  split at h
  · split at h
    · exact Option.some.inj h ▸ (by assumption)
    · exact tryNamespaces_contains h
  · simp at h

theorem tryRuleParams_contains {w : Str} {core : List Str} {n : Str}
    (h : tryRuleParams w core = some n) : core.contains n = true := by
  simp only [tryRuleParams] at h
  split at h
  · split at h
    · exact Option.some.inj h ▸ (by assumption)
    · exact tryNamespaces_contains h
  · simp at h

theorem normalizeKibanaAlert_contains {f : Str} {core : List Str} {n : Str}
    (h : normalizeKibanaAlert f core = some n) : core.contains n = true := by
  simp only [normalizeKibanaAlert] at h
  split at h
  · split at h
    · exact Option.some.inj h ▸ (by assumption)
    · split at h
      · exact Option.some.inj h ▸ tryOriginalEvent_contains (by assumption)
      · split at h
        · exact Option.some.inj h ▸ tryNamespaces_contains (by assumption)
        · split at h
          · exact Option.some.inj h ▸ tryRuleSub_contains (by assumption)
          · exact tryRuleParams_contains h
  · simp at h

theorem tryComplexMapping_contains {f : Str} {core : List Str} {n : Str}
    (h : tryComplexMapping f core = some n) : core.contains n = true := by
  simp only [tryComplexMapping] at h
  split at h
  · split at h
    · exact Option.some.inj h ▸ (by assumption)
    · simp at h
  · simp at h

theorem tryMetadata_contains {f : Str} {core : List Str} {n : Str}
    (h : tryMetadata f core = some n) : core.contains n = true := by
  simp only [tryMetadata] at h
  split at h
  · split at h
    · exact Option.some.inj h ▸ (by assumption)
    · simp at h
  · simp at h

theorem tryNested_contains {f : Str} {core : List Str} {n : Str}
    (h : tryNested f core = some n) : core.contains n = true := by
  simp only [tryNested] at h
  split at h
  · split at h
    · exact Option.some.inj h ▸ (by assumption)
    · simp at h
  · simp at h

theorem tryProp_contains {f : Str} {core : List Str} {n : Str}
    (h : tryProp f core = some n) : core.contains n = true := by
  simp only [tryProp] at h
  split at h
  · split at h
    · exact Option.some.inj h ▸ (by assumption)
    · simp at h
  · simp at h

theorem trySchemaDef_contains {f : Str} {core : List Str} {n : Str}
    (h : trySchemaDef f core = some n) : core.contains n = true := by
  simp only [trySchemaDef] at h
  split at h
  · split at h
    · split at h
      · exact Option.some.inj h ▸ (by assumption)
      · simp at h
    · simp at h
  · simp at h

/-- Every non-null normalization result is a member of the schema set. -/
theorem normalizeFieldName_contains {f : Str} {core : List Str} {n : Str}
    (h : normalizeFieldName f core = some n) : core.contains n = true := by
  simp only [normalizeFieldName] at h
  split at h
  · exact Option.some.inj h ▸ normalizeKibanaAlert_contains (by assumption)
  · split at h
    · exact Option.some.inj h ▸ tryComplexMapping_contains (by assumption)
    · split at h
      · exact Option.some.inj h ▸ tryMetadata_contains (by assumption)
      · split at h
        · exact Option.some.inj h ▸ tryNested_contains (by assumption)
        · split at h
          · exact Option.some.inj h ▸ tryProp_contains (by assumption)
          · exact trySchemaDef_contains h

/-- Rule 1 of the normalizer applied to a candidate built from the vendor alert
namespace and a schema member returns that member directly. -/
theorem normalizeKibanaAlert_rule1 {r : Str} {core : List Str}
    (hc : core.contains r = true) :
    normalizeKibanaAlert (str "kibana.alert." ++ r) core = some r := by
  have h1 : (str "kibana.alert.").isPrefixOf (str "kibana.alert." ++ r) = true := by
    rw [ List.isPrefixOf_iff_prefix]; exact List.prefix_append _ _
  simp only [normalizeKibanaAlert, h1, if_true, List.drop_left, hc]

/-- C3.  The normalizer tries its rules in the fixed order and short-circuits
on the first schema hit: every non-null result is a schema member, and whenever
rule 1 applies (the candidate is the vendor alert prefix followed by a schema
member) its result is returned, so no later rule can contribute. -/
theorem normalizer_first_hit_wins :
    (∀ (f : Str) (core : List Str) (n : Str),
        normalizeFieldName f core = some n → core.contains n = true) ∧
    (∀ (r : Str) (core : List Str), core.contains r = true →
        normalizeFieldName (str "kibana.alert." ++ r) core = some r) := by
  constructor
  · intro f core n h
    exact normalizeFieldName_contains h
  · intro r core hc
    simp only [normalizeFieldName, normalizeKibanaAlert_rule1 hc]

/-- Witness for C3 at a concrete candidate matching rule 1. -/
theorem normalizer_first_hit_wins_witness :
    normalizeFieldName (str "kibana.alert." ++ str "user.name") [str "user.name"] =
        some (str "user.name") ∧
    ([str "user.name"] : List Str).contains (str "user.name") = true :=
  ⟨normalizer_first_hit_wins.2 (str "user.name") [str "user.name"] (by decide),
   normalizer_first_hit_wins.1 (str "kibana.alert." ++ str "user.name")
     [str "user.name"] (str "user.name")
     (normalizer_first_hit_wins.2 (str "user.name") [str "user.name"] (by decide))⟩

/-- C1.  Schema-prefix law: a schema member followed by a dot and any non-empty
suffix is accepted by `isECSField`, so the classifier yields core even with an
empty vendor-pattern set. -/
theorem classify_schema_prefix_core (f suffix : Str) (core : List Str)
    (hf : core.contains f = true) (hs : suffix ≠ []) :
    classifyField (f ++ '.' :: suffix) core [] = Category.core := by
  have hp : isECSField (f ++ '.' :: suffix) core = true := by
    have h1 : (f ++ '.' :: suffix).isEmpty = false := by
      cases f <;> simp
    have h2 : core.any (fun c => (c ++ ['.']).isPrefixOf (f ++ '.' :: suffix)) = true := by
      rw [List.any_eq_true]
      refine ⟨f, by simpa using hf, ?_⟩
      have he : f ++ '.' :: suffix = (f ++ ['.']) ++ suffix := by simp
      rw [he, List.isPrefixOf_iff_prefix]
      exact List.prefix_append _ _
    simp [isECSField, h1, h2]
  simp [classifyField, hp]

/-- Witness for C1 with the sub-field example of the spec. -/
theorem classify_schema_prefix_core_witness :
    classifyField (str "user.name" ++ '.' :: str "keyword") [str "user.name", str "host.ip"] [] =
      Category.core :=
  classify_schema_prefix_core (str "user.name") (str "keyword")
    [str "user.name", str "host.ip"] (by decide) (by decide)

/-- The cons step of `categorizeFields` applies exactly the per-candidate
decision `classifyField` to the head. -/
theorem categorizeFields_eq_case (f : Str) (rest core vendor : List Str) :
    categorizeFields (f :: rest) core vendor =
      (match classifyField f core vendor with
       | .core => (f :: (categorizeFields rest core vendor).1,
                   (categorizeFields rest core vendor).2.1,
                   (categorizeFields rest core vendor).2.2)
       | .vendor => ((categorizeFields rest core vendor).1,
                     f :: (categorizeFields rest core vendor).2.1,
                     (categorizeFields rest core vendor).2.2)
       | .custom => ((categorizeFields rest core vendor).1,
                     (categorizeFields rest core vendor).2.1,
                     f :: (categorizeFields rest core vendor).2.2)) := by
  simp only [categorizeFields, classifyField]
  split_ifs <;> rfl

/-- C2.  Classification is a total, pure, per-candidate function of the triple:
every candidate gets exactly one of the three categories, and the lists built
by `categorizeFields` are precisely the filters of the input by the pure
per-candidate decision, independent of neighbouring candidates or their order. -/
theorem classification_pure_total :
    (∀ (f : Str) (core vendor : List Str),
        classifyField f core vendor = Category.core ∨
        classifyField f core vendor = Category.vendor ∨
        classifyField f core vendor = Category.custom) ∧
    (∀ (extracted core vendor : List Str),
        categorizeFields extracted core vendor =
          (extracted.filter (fun f => classifyField f core vendor == Category.core),
           extracted.filter (fun f => classifyField f core vendor == Category.vendor),
           extracted.filter (fun f => classifyField f core vendor == Category.custom))) := by
  constructor
  · intro f core vendor
    unfold classifyField
    split_ifs <;> simp
  · intro extracted core vendor
    induction extracted with
    | nil => simp [categorizeFields]
    | cons f rest ih =>
      rw [categorizeFields_eq_case, ih]
      cases h : classifyField f core vendor <;>
        simp [List.filter_cons, h]

/-- C4.  When normalization yields a usable (non-empty) name, the classifier
categorizes the candidate as core and records the original candidate string,
not the normalized one; in particular the spec's concrete scenario: candidate
`kibana.alert.user.name` with schema containing only `user.name` lands in the
core list under its original spelling. -/
theorem normalize_success_records_original :
    (∀ (f : Str) (core vendor : List Str) (n : Str),
        normalizeFieldName f core = some n → n ≠ [] →
        categorizeFields [f] core vendor = ([f], [], [])) ∧
    categorizeFields [str "kibana.alert.user.name"] [str "user.name"] [] =
      ([str "kibana.alert.user.name"], [], []) := by
  constructor
  · intro f core vendor n hn hne
    by_cases hE : isECSField f core = true
    · simp [categorizeFields, hE]
    · have hh : normHit f core = true := by
        have hmem : n ∈ core := by simpa using normalizeFieldName_contains hn
        simp [normHit, hn, hmem, hne]
      simp [categorizeFields, hE, hh]
  · decide

/-- Witness for C4: the general statement applied at the spec's scenario. -/
theorem normalize_success_records_original_witness :
    categorizeFields [str "kibana.alert.user.name"] [str "user.name"] [] =
      ([str "kibana.alert.user.name"], [], []) :=
  normalize_success_records_original.1 (str "kibana.alert.user.name")
    [str "user.name"] [] (str "user.name") (by decide) (by decide)

/-- C5.  A candidate in the fixed `kibana.` UI namespace that is neither a
direct/prefix schema match nor successfully normalized is classified vendor
for every vendor-pattern set (including the empty one), and is never custom. -/
theorem kibana_namespace_always_vendor (f : Str) (core vendor : List Str)
    (hk : (str "kibana.").isPrefixOf f = true)
    (hE : isECSField f core = false)
    (hN : normHit f core = false) :
    classifyField f core vendor = Category.vendor ∧
    classifyField f core vendor ≠ Category.custom := by
  have hv : classifyField f core vendor = Category.vendor := by
    simp [classifyField, hE, hN, hk]
  exact ⟨hv, by simp [hv]⟩

/-- Witness for C5 at the spec's example `kibana.space.id` with a schema not
containing it and no vendor patterns. -/
theorem kibana_namespace_always_vendor_witness :
    classifyField (str "kibana.space.id") [str "user.name"] [] = Category.vendor ∧
    classifyField (str "kibana.space.id") [str "user.name"] [] ≠ Category.custom :=
  kibana_namespace_always_vendor (str "kibana.space.id") [str "user.name"] []
    (by decide) (by decide) (by decide)

/-- C6.  The factored field-name validator accepts a dotless candidate exactly
when it is one of the six allow-listed single-word names. -/
theorem dotless_accepted_iff_allowlisted (s : Str) (hd : s.contains '.' = false) :
    FieldUtils.isValidESFieldName s = true ↔ s ∈ singleWordECSFields := by
  constructor
  · intro h
    by_cases he : (s == str "@timestamp") = true
    · have hs : s = str "@timestamp" := by simpa using he
      subst hs; decide
    · rw [FieldUtils.isValidESFieldName, if_neg (by simpa using he)] at h
      simp only [Bool.and_eq_true, and_assoc] at h
      obtain ⟨-, -, -, -, -, -, -, -, -, -, hg, -⟩ := h
      simp only [Bool.or_eq_true] at hg
      rcases hg with hg | hg
      · rw [hd] at hg; cases hg
      · simpa using hg
  · intro hm
    simp only [singleWordECSFields, List.mem_cons, List.not_mem_nil, or_false] at hm
    rcases hm with h | h | h | h | h | h <;> subst h <;> decide

/-- Witness for C6 at the allow-listed name `message`. -/
theorem dotless_accepted_iff_allowlisted_witness :
    (str "message").contains '.' = false ∧
    FieldUtils.isValidESFieldName (str "message") = true :=
  ⟨by decide, (dotless_accepted_iff_allowlisted (str "message") (by decide)).mpr (by decide)⟩

/-!  Lemmas about `splitSep`/`joinSep`, used to reason about GUID-shaped
candidates. -/

theorem splitSep_ne_nil (sep : Char) (s : Str) : splitSep sep s ≠ [] := by
  cases s with
  | nil => simp [splitSep]
  | cons c t =>
    simp only [splitSep]
    split
    · simp
    · split <;> simp

theorem joinSep_splitSep (sep : Char) : ∀ s : Str, joinSep sep (splitSep sep s) = s := by
  intro s
  induction s with
  | nil => rfl
  | cons c t ih =>
    simp only [splitSep]
    split
    · rename_i hc
      cases hL : splitSep sep t with
      | nil => exact absurd hL (splitSep_ne_nil sep t)
      | cons p rest =>
        rw [hL] at ih
        subst hc
        simp only [joinSep, List.nil_append]
        rw [ih]
    · cases hL : splitSep sep t with
      | nil => exact absurd hL (splitSep_ne_nil sep t)
      | cons p rest =>
        rw [hL] at ih
        simp only [hL]
        cases rest with
        | nil =>
          simp only [joinSep] at ih ⊢
          rw [ih]
        | cons q more =>
          simp only [joinSep] at ih ⊢
          rw [List.cons_append, ih]

theorem mem_joinSep {sep c : Char} :
    ∀ {parts : List Str}, c ∈ joinSep sep parts → c = sep ∨ ∃ p ∈ parts, c ∈ p := by
  intro parts
  induction parts with
  | nil => intro h; simp [joinSep] at h
  | cons p rest ih =>
    intro h
    cases rest with
    | nil =>
      right
      exact ⟨p, by simp, by simpa [joinSep] using h⟩
    | cons q more =>
      simp only [joinSep] at h
      rcases List.mem_append.mp h with h | h
      · right; exact ⟨p, by simp, h⟩
      · rcases List.mem_cons.mp h with h | h
        · left; exact h
        · rcases ih h with h | ⟨r, hr, hcr⟩
          · left; exact h
          · right; exact ⟨r, by simp [hr], hcr⟩

/-- The factored validator returns false whenever the candidate is not the
`@timestamp` special case and fails the dot/allow-list gate. -/
theorem fieldUtils_reject_of_gate {s : Str}
    (hne : (s == str "@timestamp") = false)
    (hnotdot : s.contains '.' = false)
    (hmem : singleWordECSFields.contains s = false) :
    FieldUtils.isValidESFieldName s = false := by
  rw [Bool.eq_false_iff]
  intro htrue
  rw [FieldUtils.isValidESFieldName, if_neg (by simp [hne])] at htrue
  simp only [Bool.and_eq_true, and_assoc] at htrue
  obtain ⟨-, -, -, -, -, -, -, -, -, -, hg, -⟩ := htrue
  simp only [Bool.or_eq_true] at hg
  rcases hg with hg | hg
  · rw [hnotdot] at hg; exact Bool.noConfusion hg
  · rw [hmem] at hg; exact Bool.noConfusion hg

/-- Counterexample for C7: a candidate with an embedded 32-hex dot-segment is
nevertheless accepted by the factored shared-utility validator
(`field-utils isValidESFieldName`), which the claim's sources include: the
factored version dropped the hashPatterns group. -/
theorem hex_segment_accepted_by_field_utils :
    hexDotSegment (str "x.abcdefabcdefabcdefabcdefabcdefab.y") = true ∧
    FieldUtils.isValidESFieldName (str "x.abcdefabcdefabcdefabcdefabcdefab.y") = true := by
  decide

/-- C7 (amended).  The two inline validators (FieldParser.isValidESFieldName
and the legacy ESClientParser.isValidFieldName) reject every hash-like
candidate: full 32-or-more hex runs, GUID-shaped strings, and embedded 32-hex
dot-segments.  The factored field-utils validator rejects full hex runs and
GUID-shaped strings (through its dot/allow-list gate and grammar), but not
embedded hex dot-segments. -/
theorem hash_like_rejected_amended :
    (∀ s : Str, allHex32 s = true ∨ guidShaped s = true ∨ hexDotSegment s = true →
        FieldParserM.isValidESFieldName s = false ∧
        ESClientLegacy.isValidFieldName s = false) ∧
    (∀ s : Str, allHex32 s = true ∨ guidShaped s = true →
        FieldUtils.isValidESFieldName s = false) := by
  constructor
  · intro s h
    have hm : matchesHashPatterns s = true := by
      unfold matchesHashPatterns
      rcases h with h | h | h <;> simp [h]
    constructor
    · unfold FieldParserM.isValidESFieldName
      simp [hm]
    · unfold ESClientLegacy.isValidFieldName
      simp [hm]
  · intro s h
    rcases h with h | h
    · -- a full hex run has no dot, is longer than every allow-listed word,
      -- and is not the @timestamp special case
      have hlen : 32 ≤ s.length := by
        simp only [allHex32, Bool.and_eq_true, decide_eq_true_eq] at h
        exact h.1
      have hhex : ∀ c ∈ s, isHexChar c = true := by
        simp only [allHex32, Bool.and_eq_true, List.all_eq_true] at h
        exact h.2
      have hnotdot : s.contains '.' = false := by
        rw [Bool.eq_false_iff]
        intro hc
        have hdm : '.' ∈ s := by simpa using hc
        exact absurd (hhex '.' hdm) (by decide)
      have hne : (s == str "@timestamp") = false := by
        rw [Bool.eq_false_iff]
        intro hb
        have hs : s = str "@timestamp" := by simpa using hb
        subst hs
        exact absurd hlen (by decide)
      have hmem : singleWordECSFields.contains s = false := by
        rw [Bool.eq_false_iff]
        intro hb
        have hm : s ∈ singleWordECSFields := by simpa using hb
        simp only [singleWordECSFields, List.mem_cons, List.not_mem_nil, or_false] at hm
        rcases hm with rfl | rfl | rfl | rfl | rfl | rfl <;> exact absurd hlen (by decide)
      exact fieldUtils_reject_of_gate hne hnotdot hmem
    · -- a GUID-shaped candidate is hyphen-joined from hex parts, so it has no
      -- dot; it is not @timestamp nor allow-listed
      have h' := h
      unfold guidShaped at h'
      have hne : (s == str "@timestamp") = false := by
        rw [Bool.eq_false_iff]
        intro hb
        have hs : s = str "@timestamp" := by simpa using hb
        subst hs
        exact absurd h (by decide)
      have hmem : singleWordECSFields.contains s = false := by
        rw [Bool.eq_false_iff]
        intro hb
        have hm : s ∈ singleWordECSFields := by simpa using hb
        simp only [singleWordECSFields, List.mem_cons, List.not_mem_nil, or_false] at hm
        rcases hm with rfl | rfl | rfl | rfl | rfl | rfl <;> exact absurd h (by decide)
      have hnotdot : s.contains '.' = false := by
        rw [Bool.eq_false_iff]
        intro hc
        have hdm : '.' ∈ s := by simpa using hc
        split at h'
        · rename_i a b c d e heq
          simp only [Bool.and_eq_true, and_assoc, List.all_eq_true] at h'
          obtain ⟨-, -, -, -, -, hxa, hxb, hxc, hxd, hxe⟩ := h'
          have hs : s = joinSep '-' [a, b, c, d, e] := by
            have hj := joinSep_splitSep '-' s
            rw [heq] at hj
            exact hj.symm
          rw [hs] at hdm
          rcases mem_joinSep hdm with h0 | ⟨p, hp, hcp⟩
          · exact absurd h0 (by decide)
          · simp only [List.mem_cons, List.not_mem_nil, or_false] at hp
            rcases hp with rfl | rfl | rfl | rfl | rfl
            · exact absurd (hxa '.' hcp) (by decide)
            · exact absurd (hxb '.' hcp) (by decide)
            · exact absurd (hxc '.' hcp) (by decide)
            · exact absurd (hxd '.' hcp) (by decide)
            · exact absurd (hxe '.' hcp) (by decide)
        · exact Bool.noConfusion h'
      exact fieldUtils_reject_of_gate hne hnotdot hmem

/-- Witness for C7's amended theorem at concrete hash-like inputs. -/
theorem hash_like_rejected_amended_witness :
    FieldParserM.isValidESFieldName (str "x.abcdefabcdefabcdefabcdefabcdefab.y") = false ∧
    ESClientLegacy.isValidFieldName (str "x.abcdefabcdefabcdefabcdefabcdefab.y") = false ∧
    FieldUtils.isValidESFieldName (str "abcdefabcdefabcdefabcdefabcdefab") = false ∧
    FieldUtils.isValidESFieldName (str "12345678-1234-1234-1234-123456789012") = false :=
  ⟨(hash_like_rejected_amended.1 _ (Or.inr (Or.inr (by decide)))).1,
   (hash_like_rejected_amended.1 _ (Or.inr (Or.inr (by decide)))).2,
   hash_like_rejected_amended.2 _ (Or.inl (by decide)),
   hash_like_rejected_amended.2 _ (Or.inr (by decide))⟩

/-- C8.  A reference-schema CSV yielding zero valid field rows is fatal: the
loading step surfaces the schema-empty error and hands no schema on, so no
classification can proceed; with at least one valid row it succeeds; and any
single malformed or blank row is skipped silently without affecting the rest. -/
theorem empty_schema_fatal_rows_skipped :
    (∀ records : List CSVRecord, parseECSFields records = [] →
        loadSchemaStep records = Except.error AnalysisError.schemaEmpty) ∧
    (∀ records : List CSVRecord, parseECSFields records ≠ [] →
        loadSchemaStep records = Except.ok (parseECSFields records)) ∧
    (∀ (r : CSVRecord) (acc : List Str) (rest : List CSVRecord), rowKept r = false →
        parseECSFieldsAux acc (r :: rest) = parseECSFieldsAux acc rest) := by
  refine ⟨?_, ?_, ?_⟩
  · intro records h
    simp [loadSchemaStep, h]
  · intro records h
    simp [loadSchemaStep, h]
  · intro r acc rest hk
    simp only [parseECSFieldsAux]
    cases hv : rowFieldValue r with
    | none => rfl
    | some v =>
      simp only [rowKept, hv] at hk
      rcases Bool.and_eq_false_iff.mp hk with h1 | h2
      · simp [h1]
      · by_cases he : (trimStr v).isEmpty
        · simp [he]
        · simp [he, h2]

/-- Witness for C8: an all-blank CSV is fatal, and a malformed row is skipped. -/
theorem empty_schema_fatal_rows_skipped_witness :
    loadSchemaStep [⟨some (str "  "), none, none⟩] =
        Except.error AnalysisError.schemaEmpty ∧
    parseECSFieldsAux [] [⟨some (str "bad-name"), none, none⟩] =
        parseECSFieldsAux [] [] :=
  ⟨empty_schema_fatal_rows_skipped.1 _ (by decide),
   empty_schema_fatal_rows_skipped.2.2 _ [] [] (by decide)⟩

/-- C9.  When the strict structured-document parse throws, the failure is
absorbed inside the extractor and the result is exactly the pattern-based text
extraction applied to the same fragment; no error is ever surfaced. -/
theorem parse_failure_falls_back_to_text :
    ∀ (parseJson : Str → Except Str Json) (content : Str) (acc : List Str) (e : Str),
      parseJson content = Except.error e →
      extractFromJSON parseJson content acc = extractFromText content acc := by
  intro p content acc e h
  simp only [extractFromJSON, h]

/-- Witness for C9: a parser that always throws makes the extractor return the
text-pattern result for the same malformed fragment. -/
theorem parse_failure_falls_back_to_text_witness :
    extractFromJSON failingParse (str "bad json with 'user.name'") [] =
        extractFromText (str "bad json with 'user.name'") [] ∧
    extractFromText (str "bad json with 'user.name'") [] = [str "user.name"] :=
  ⟨parse_failure_falls_back_to_text failingParse (str "bad json with 'user.name'")
     [] (str "SyntaxError") rfl,
   by decide⟩

/-- Counterexample for C10: the three validator generations all disagree at the
input `@timestamp` — the inline FieldParser validator rejects it while the
shared-utility validator and the legacy ESClientParser validator accept it. -/
theorem validators_disagree_at_timestamp :
    FieldParserM.isValidESFieldName (str "@timestamp") = false ∧
    FieldUtils.isValidESFieldName (str "@timestamp") = true ∧
    ESClientLegacy.isValidFieldName (str "@timestamp") = true := by decide

/-- C10 (amended).  The three validator generations are pairwise extensionally
different: FieldParser.isValidESFieldName rejects `@timestamp` (its grammar
forbids a leading `@`) while the other two accept it; the legacy
ESClientParser.isValidFieldName rejects `enzyme.shallow` (jsPatterns group)
while the shared utility, which dropped that group, accepts it; and
FieldParser.isValidESFieldName accepts `router.versioned` (it has no
common-API-pattern check) while the other two reject it. -/
theorem validator_generations_pairwise_differ :
    (FieldParserM.isValidESFieldName (str "@timestamp") = false ∧
     ESClientLegacy.isValidFieldName (str "@timestamp") = true ∧
     FieldUtils.isValidESFieldName (str "@timestamp") = true) ∧
    (ESClientLegacy.isValidFieldName (str "enzyme.shallow") = false ∧
     FieldUtils.isValidESFieldName (str "enzyme.shallow") = true) ∧
    (FieldParserM.isValidESFieldName (str "router.versioned") = true ∧
     ESClientLegacy.isValidFieldName (str "router.versioned") = false ∧
     FieldUtils.isValidESFieldName (str "router.versioned") = false) := by
  decide
